import Mathlib

/-!
Verification of the masonry `Flex` container (`masonry/src/widgets/flex.rs`):
the spacing distributor, the flex layout solver and the child-mutation
entry points.

Embedding conventions:
* `f64` values are embedded as exact rationals (`ℚ`).  Where IEEE special
  values (NaN, ±infinity) are semantically relevant (validation entry
  points), the type `FloatVal` tags a rational with the special values.
  The rational embedding is exact arithmetic: it does not model binary
  rounding error or subnormal thresholds.
* Rust `f64::round` (round half away from zero) is `f64round`.
* `kurbo::common::FloatExt::expand` (round away from zero to an integer,
  `self.abs().ceil().copysign(self)`) is `qexpand`.
* Panics are embedded as `none` in an `Option` result.
-/

set_option linter.unusedVariables false
set_option linter.unusedTactic false

namespace Masonry

/-- An `f64` value: either a finite number (embedded exactly as a rational)
or one of the IEEE special values.  Overflow to infinity and subnormal
thresholds are not modelled: `isNormal` on a finite value only checks
nonzeroness. -/
inductive FloatVal where
  | finite (val : ℚ)
  | nan
  | posInf
  | negInf
deriving DecidableEq, Repr

namespace FloatVal

/-- `f64::is_finite`. -/
def isFinite : FloatVal → Bool
  | .finite _ => true
  | _ => false

/-- The rational carried by a finite value; 0 for the special values. -/
def toRat : FloatVal → ℚ
  | .finite q => q
  | _ => 0

/-- `f64::is_normal`: zero and the special values are not normal.
(Subnormal magnitudes are not representable in the exact embedding.) -/
def isNormal : FloatVal → Bool
  | .finite q => decide (q ≠ 0)
  | _ => false

/-- IEEE `<=` on `f64`: any comparison with NaN is false. -/
def ble : FloatVal → FloatVal → Bool
  | .nan, _ => false
  | _, .nan => false
  | .negInf, _ => true
  | _, .posInf => true
  | .posInf, _ => false
  | .finite _, .negInf => false
  | .finite a, .finite b => decide (a ≤ b)

/-- IEEE `<` on `f64`: any comparison with NaN is false. -/
def blt : FloatVal → FloatVal → Bool
  | .nan, _ => false
  | _, .nan => false
  | .negInf, .negInf => false
  | .negInf, _ => true
  | _, .negInf => false
  | .posInf, _ => false
  | .finite _, .posInf => true
  | .finite a, .finite b => decide (a < b)

/-- IEEE addition on the symbolic values (finite addition is exact;
overflow to infinity is not modelled). -/
def add : FloatVal → FloatVal → FloatVal
  | .nan, _ => .nan
  | _, .nan => .nan
  | .posInf, .negInf => .nan
  | .negInf, .posInf => .nan
  | .posInf, _ => .posInf
  | _, .posInf => .posInf
  | .negInf, _ => .negInf
  | _, .negInf => .negInf
  | .finite a, .finite b => .finite (a + b)

instance : Add FloatVal := ⟨FloatVal.add⟩

instance : Zero FloatVal := ⟨.finite 0⟩

end FloatVal

/-- The ceiling of a rational, computed through the executable
`Rat.floor`. -/
def qceil (x : ℚ) : ℤ := -Rat.floor (-x)

/-- Rust `f64::round`: round to the nearest integer, halves away from zero.
(`Rat.floor` is used rather than `Int.floor` so that the definition
evaluates by kernel reduction.) -/
def f64round (x : ℚ) : ℚ :=
  if x < 0 then -((Rat.floor (-x + 1/2) : ℤ) : ℚ) else ((Rat.floor (x + 1/2) : ℤ) : ℚ)

/-- `kurbo::common::FloatExt::expand`: round away from zero to an integer
(`self.abs().ceil().copysign(self)`). -/
def qexpand (x : ℚ) : ℚ :=
  if x < 0 then -((qceil (-x) : ℤ) : ℚ) else ((qceil x : ℤ) : ℚ)

theorem ratFloor_eq_intFloor (x : ℚ) : Rat.floor x = Int.floor x := by
  rw [Rat.floor_def']
  exact Rat.floor_def.symm

theorem f64round_eq (x : ℚ) :
    f64round x =
      if x < 0 then -((Int.floor (-x + 1/2) : ℤ) : ℚ) else ((Int.floor (x + 1/2) : ℤ) : ℚ) := by
  unfold f64round
  rw [ratFloor_eq_intFloor, ratFloor_eq_intFloor]

theorem qexpand_eq (x : ℚ) :
    qexpand x = if x < 0 then -((Int.ceil (-x) : ℤ) : ℚ) else ((Int.ceil x : ℤ) : ℚ) := by
  unfold qexpand qceil
  rw [ratFloor_eq_intFloor, ratFloor_eq_intFloor]
  simp [Int.floor_neg, Int.ceil_neg, neg_neg]

theorem f64round_isInt (x : ℚ) : ∃ k : ℤ, f64round x = (k : ℚ) := by
  rw [f64round_eq]
  split
  · exact ⟨-Int.floor (-x + 1/2), by push_cast; ring⟩
  · exact ⟨Int.floor (x + 1/2), rfl⟩

theorem abs_sub_f64round_le (x : ℚ) : |x - f64round x| ≤ 1/2 := by
  rw [f64round_eq, abs_le]
  split
  all_goals constructor
  · have h := Int.lt_floor_add_one (-x + 1/2)
    push_cast at h ⊢
    linarith
  · have h := Int.floor_le (-x + 1/2)
    push_cast at h ⊢
    linarith
  · have h := Int.floor_le (x + 1/2)
    push_cast at h ⊢
    linarith
  · have h := Int.lt_floor_add_one (x + 1/2)
    push_cast at h ⊢
    linarith

theorem f64round_int (x : ℚ) (h : ∃ k : ℤ, x = (k : ℚ)) : f64round x = x := by
  obtain ⟨k, rfl⟩ := h
  rw [f64round_eq]
  split
  · have : Int.floor ((-(k : ℚ)) + 1/2) = -k := by
      rw [Int.floor_eq_iff]
      constructor
      · push_cast; linarith
      · push_cast; linarith
    rw [this]; push_cast; ring
  · have : Int.floor ((k : ℚ) + 1/2) = k := by
      rw [Int.floor_eq_iff]
      constructor
      · push_cast; linarith
      · push_cast; linarith
    rw [this]

/-- A 2D size (`vello::kurbo::Size`). -/
structure Size where
  width : ℚ
  height : ℚ
deriving DecidableEq, Repr

/-- A 2D point (`vello::kurbo::Point`). -/
structure Point where
  x : ℚ
  y : ℚ
deriving DecidableEq, Repr

/-- Modelled from the spec: the opaque constraint collaborator
(`BoxConstraints`), a min/max size envelope with `tight` and `loosen`
operations (spec §2, §6). -/
structure BoxConstraints where
  cmin : Size
  cmax : Size
deriving DecidableEq, Repr

namespace BoxConstraints

/-- `BoxConstraints::tight`: min = max = the given size. -/
def tight (s : Size) : BoxConstraints := ⟨s, s⟩

/-- `BoxConstraints::loosen`: drop the minimums to zero. -/
def loosen (bc : BoxConstraints) : BoxConstraints := ⟨⟨0, 0⟩, bc.cmax⟩

/-- `BoxConstraints::new`. -/
def new (cmin cmax : Size) : BoxConstraints := ⟨cmin, cmax⟩

end BoxConstraints

/-- `Axis`: the direction in which a `Flex` container lays out children. -/
inductive Axis where
  | Horizontal
  | Vertical
deriving DecidableEq, Repr

namespace Axis

/-- `Axis::cross`: the perpendicular axis. -/
def cross : Axis → Axis
  | .Horizontal => .Vertical
  | .Vertical => .Horizontal

/-- `Axis::major`: the magnitude of a size along this axis. -/
def major (a : Axis) (s : Size) : ℚ :=
  match a with
  | .Horizontal => s.width
  | .Vertical => s.height

/-- `Axis::minor`: the magnitude of a size along the perpendicular axis. -/
def minor (a : Axis) (s : Size) : ℚ := a.cross.major s

/-- `Axis::pack`: arrange (major, minor) into an (x, y) pair. -/
def pack (a : Axis) (major minor : ℚ) : ℚ × ℚ :=
  match a with
  | .Horizontal => (major, minor)
  | .Vertical => (minor, major)

/-- `Axis::constraints`: new constraints with the given major-axis range. -/
def constraints (a : Axis) (bc : BoxConstraints) (min_major major : ℚ) : BoxConstraints :=
  match a with
  | .Horizontal => BoxConstraints.new ⟨min_major, bc.cmin.height⟩ ⟨major, bc.cmax.height⟩
  | .Vertical => BoxConstraints.new ⟨bc.cmin.width, min_major⟩ ⟨bc.cmax.width, major⟩

end Axis

/-- A size built from an axis-packed (x, y) pair. -/
def Size.ofPair (p : ℚ × ℚ) : Size := ⟨p.1, p.2⟩

/-- A point built from an axis-packed (x, y) pair. -/
def Point.ofPair (p : ℚ × ℚ) : Point := ⟨p.1, p.2⟩

/-- `CrossAxisAlignment`. -/
inductive CrossAxisAlignment where
  | Start
  | Center
  | End
  | Baseline
  | Fill
deriving DecidableEq, Repr

/-- `MainAxisAlignment`. -/
inductive MainAxisAlignment where
  | Start
  | Center
  | End
  | SpaceBetween
  | SpaceEvenly
  | SpaceAround
deriving DecidableEq, Repr

/-- `CrossAxisAlignment::align`: the minor-axis offset for the given slack. -/
def CrossAxisAlignment.align (a : CrossAxisAlignment) (val : ℚ) : ℚ :=
  match a with
  | .Start => 0
  | .Center | .Baseline => f64round (val / 2)
  | .End => val
  | .Fill => 0

/-- `Child`: the tagged per-child variant of a `Flex` container, generic in
the widget payload `W` and the numeric type `Q` used for weights and
lengths (`ℚ` for exact layout, `FloatVal` where IEEE specials matter). -/
inductive Child (W Q : Type) where
  | fixed (widget : W) (alignment : Option CrossAxisAlignment)
  | flex (widget : W) (alignment : Option CrossAxisAlignment) (flex : Q)
  | fixedSpacer (len : Q) (calculated : Q)
  | flexedSpacer (flex : Q) (calculated : Q)
deriving DecidableEq, Repr

/-- `Child::widget`: the widget of an element child, `none` for spacers. -/
def Child.widget {W Q : Type} : Child W Q → Option W
  | .fixed w _ => some w
  | .flex w _ _ => some w
  | _ => none

/-- Whether a child is a spacer (fixed or flexed). -/
def Child.isSpacer {W Q : Type} : Child W Q → Bool
  | .fixedSpacer _ _ => true
  | .flexedSpacer _ _ => true
  | _ => false

/-- The weights of the flexible children (`Child::Flex` and
`Child::FlexedSpacer`), in order. -/
def flexWeights {W Q : Type} (cs : List (Child W Q)) : List Q :=
  cs.filterMap fun c =>
    match c with
    | .flex _ _ fx => some fx
    | .flexedSpacer fx _ => some fx
    | _ => none

/-- The `flex_sum` accumulation of the first layout pass
(`flex_sum += *flex` for every `Flex` child and `FlexedSpacer`,
flex.rs line 1066), folded from an initial value. -/
def flexSum {W Q : Type} [Add Q] (cs : List (Child W Q)) (init : Q) : Q :=
  cs.foldl
    (fun acc c =>
      match c with
      | .flex _ _ fx => acc + fx
      | .flexedSpacer fx _ => acc + fx
      | _ => acc)
    init

/-- `FlexParams`: optional flex factor and cross-axis alignment override. -/
structure FlexParams where
  flex : Option FloatVal
  alignment : Option CrossAxisAlignment
deriving DecidableEq, Repr

/-- `FlexParams::new`: a flex factor `<= 0.0` is replaced by `Some(0.0)`
with a diagnostic (`debug_panic`, which logs and continues in release). -/
def FlexParams.new (flex : Option FloatVal) (alignment : Option CrossAxisAlignment) :
    FlexParams :=
  let flex :=
    match flex with
    | some f => if FloatVal.ble f (.finite 0) then some (.finite 0) else some f
    | none => none
  { flex := flex, alignment := alignment }

/-- `new_flex_child`: a widget child is flexible only when its factor is
normal and strictly positive; otherwise it is downgraded to `Fixed` with a
warning. -/
def new_flex_child {W : Type} (params : FlexParams) (widget : W) : Child W FloatVal :=
  match params.flex with
  | some flex =>
      if flex.isNormal && FloatVal.blt (.finite 0) flex then
        .flex widget params.alignment flex
      else
        .fixed widget params.alignment
  | none => .fixed widget params.alignment

/-- The weight-invariant for a single child: flexible entries carry a
normal, strictly positive factor. -/
def childWeightOk {W : Type} : Child W FloatVal → Bool
  | .flex _ _ f => f.isNormal && FloatVal.blt (.finite 0) f
  | .flexedSpacer f _ => f.isNormal && FloatVal.blt (.finite 0) f
  | _ => true

/-- The weight sanitisation performed by `with_flex_spacer`,
`add_flex_spacer` and `insert_flex_spacer`: keep `flex` when
`flex >= 0.0`, otherwise substitute `0.0` with a diagnostic
(`debug_panic`). -/
def sanitizeSpacerFlex (flex : FloatVal) : FloatVal :=
  if FloatVal.ble (.finite 0) flex then flex else .finite 0

/-- `Flex::with_flex_spacer` (and `add_flex_spacer` / `insert_flex_spacer`
at the end of the list): push a `FlexedSpacer` with the sanitised weight. -/
def with_flex_spacer {W : Type} (cs : List (Child W FloatVal)) (flex : FloatVal) :
    List (Child W FloatVal) :=
  cs ++ [.flexedSpacer (sanitizeSpacerFlex flex) (.finite 0)]

/-- `Flex::update_spacer_flex`: replace the spacer at `idx` by
`FlexedSpacer(flex, 0.0)`; panic (`none`) when the element at `idx` is not
a spacer, or when `idx` is out of bounds (the Rust indexing panics). -/
def update_spacer_flex {W Q : Type} [Zero Q] (cs : List (Child W Q)) (idx : ℕ) (flex : Q) :
    Option (List (Child W Q)) :=
  match cs[idx]? with
  | none => none
  | some (.fixedSpacer _ _) => some (cs.set idx (.flexedSpacer flex 0))
  | some (.flexedSpacer _ _) => some (cs.set idx (.flexedSpacer flex 0))
  | some _ => none

/-- Modelled from the spec: the theming collaborator supplying the
axis-dependent default gap (`WIDGET_PADDING_VERTICAL` /
`WIDGET_PADDING_HORIZONTAL`, external to this component, spec §3). -/
structure Theme where
  widget_padding_vertical : ℚ
  widget_padding_horizontal : ℚ
deriving DecidableEq, Repr

/-- `axis_default_spacer`: the default spacer / gap size for an axis. -/
def axis_default_spacer (theme : Theme) (axis : Axis) : ℚ :=
  match axis with
  | .Vertical => theme.widget_padding_vertical
  | .Horizontal => theme.widget_padding_horizontal

/-- Modelled from the spec: the per-child state owned by the layout-context
collaborator (spec §6): the dirty bit, the cached size and baseline from
the previous layout, the placed origin, the constraints last used to
measure, and the child's measurement behaviour (`measure` returns the size
and baseline the child reports for given constraints; it is a pure
function, reflecting the deterministic single-threaded solve of §5). -/
structure WidgetState where
  measure : BoxConstraints → Size × ℚ
  needsLayout : Bool
  size : Size
  baseline : ℚ
  pos : Point
  lastBc : Option BoxConstraints

/-- Modelled from the spec: `ctx.run_layout(widget, bc)` measures the child
against `bc`, records the resulting size and baseline in the context's
cache and clears the child's dirty bit. -/
def runLayout (w : WidgetState) (bc : BoxConstraints) : Size × WidgetState :=
  let m := w.measure bc
  (m.1, { w with size := m.1, baseline := m.2, needsLayout := false, lastBc := some bc })

/-- Modelled from the spec: `ctx.skip_layout(widget)` is the explicit
no-op acknowledgment when the solver reuses the cached size. -/
def skipLayout (w : WidgetState) : WidgetState := w

/-- The `Flex` container state, generic in the widget payload and numeric
type like `Child`. -/
structure Flex (W Q : Type) where
  direction : Axis
  cross_alignment : CrossAxisAlignment
  main_alignment : MainAxisAlignment
  fill_major_axis : Bool
  children : List (Child W Q)
  old_bc : BoxConstraints
  gap : Option Q

/-- `Flex::for_axis`. -/
def Flex.for_axis (W Q : Type) (axis : Axis) : Flex W Q :=
  { direction := axis
    children := []
    cross_alignment := .Center
    main_alignment := .Start
    fill_major_axis := false
    old_bc := BoxConstraints.tight ⟨0, 0⟩
    gap := none }

/-- `Flex::gap` (builder): accept only a finite, non-negative gap; panic
(`none`) otherwise, leaving the container untouched. -/
def Flex.gapBuilder {W : Type} (f : Flex W FloatVal) (gap : FloatVal) :
    Option (Flex W FloatVal) :=
  if gap.isFinite && FloatVal.ble (.finite 0) gap then
    some { f with gap := some gap }
  else
    none

/-- `Flex::set_gap` (mutator): identical validation to the builder. -/
def Flex.set_gap {W : Type} (f : Flex W FloatVal) (gap : FloatVal) :
    Option (Flex W FloatVal) :=
  if gap.isFinite && FloatVal.ble (.finite 0) gap then
    some { f with gap := some gap }
  else
    none

/-- `Flex::raw_gap` (builder): store the optional gap verbatim, with no
validation and no panic path. -/
def Flex.raw_gap {W Q : Type} (f : Flex W Q) (gap : Option Q) : Flex W Q :=
  { f with gap := gap }

/-- `Flex::set_raw_gap` (mutator): store the optional gap verbatim, with no
validation and no panic path. -/
def Flex.set_raw_gap {W Q : Type} (f : Flex W Q) (gap : Option Q) : Flex W Q :=
  { f with gap := gap }

/-- The state of the `Spacing` iterator. -/
structure Spacing where
  alignment : MainAxisAlignment
  extra : ℚ
  n_children : ℕ
  index : ℕ
  equal_space : ℚ
  remainder : ℚ
deriving DecidableEq, Repr

namespace Spacing

/-- `Spacing::new`: a non-finite `extra` is replaced by `0.`; the equal
share depends on the alignment policy. -/
def new (alignment : MainAxisAlignment) (extra : FloatVal) (n_children : ℕ) : Spacing :=
  let extra : ℚ := if extra.isFinite then extra.toRat else 0
  let equal_space : ℚ :=
    if 0 < n_children then
      match alignment with
      | .Center => extra / 2
      | .SpaceBetween => extra / ((max (n_children - 1) 1 : ℕ) : ℚ)
      | .SpaceEvenly => extra / ((n_children + 1 : ℕ) : ℚ)
      | .SpaceAround => extra / ((2 * n_children : ℕ) : ℚ)
      | _ => 0
    else 0
  { alignment := alignment
    extra := extra
    n_children := n_children
    index := 0
    equal_space := equal_space
    remainder := 0 }

/-- `Spacing::next_space`: the remainder-carry rounding step. -/
def next_space (s : Spacing) : ℚ × Spacing :=
  let desired_space := s.equal_space + s.remainder
  let actual_space := f64round desired_space
  (actual_space, { s with remainder := desired_space - actual_space })

/-- `<Spacing as Iterator>::next`. -/
def next (s : Spacing) : Option (ℚ × Spacing) :=
  if s.n_children < s.index then
    none
  else
    let r : ℚ × Spacing :=
      if s.n_children = 0 then
        (s.extra, s)
      else
        match s.alignment with
        | .Start => if s.index = s.n_children then (s.extra, s) else (0, s)
        | .End => if s.index = 0 then (s.extra, s) else (0, s)
        | .Center =>
            if s.index = 0 then s.next_space
            else if s.index = s.n_children then s.next_space
            else (0, s)
        | .SpaceBetween =>
            if s.index = 0 then (0, s)
            else if s.index ≠ s.n_children then s.next_space
            else
              match s.n_children with
              | 1 => s.next_space
              | _ => (0, s)
        | .SpaceEvenly => s.next_space
        | .SpaceAround =>
            if s.index = 0 ∨ s.index = s.n_children then s.next_space
            else
              let a := s.next_space
              let b := a.2.next_space
              (a.1 + b.1, b.2)
    some (r.1, { r.2 with index := r.2.index + 1 })

/-- Emit at most `fuel` values from the iterator, stopping early at `None`. -/
def emitFrom : ℕ → Spacing → List ℚ × Spacing
  | 0, s => ([], s)
  | fuel + 1, s =>
      match s.next with
      | none => ([], s)
      | some (v, s1) =>
          let r := emitFrom fuel s1
          (v :: r.1, r.2)

/-- Iterate a freshly created `Spacing` to exhaustion: the iterator yields
`None` as soon as `index` exceeds `n_children`, so `n_children + 1` steps
of fuel always reach exhaustion from `index = 0`. -/
def run (s : Spacing) : List ℚ := (emitFrom (s.n_children + 1) s).1

/-- `spacing.next().unwrap_or(0.)` as used by the placement pass. -/
def nextOr0 (s : Spacing) : ℚ × Spacing :=
  match s.next with
  | none => (0, s)
  | some (v, s1) => (v, s1)

end Spacing

/-- The per-item allocation step of the flexible measurement pass
(flex.rs lines 1090–1092 and 1117–1119): round the desired major extent
and carry the rounding residue. -/
def nextAlloc (flex px_per_flex remainder : ℚ) : ℚ × ℚ :=
  let desired_major := flex * px_per_flex + remainder
  let actual_major := f64round desired_major
  (actual_major, desired_major - actual_major)

/-- The allocation sequence produced by iterating `nextAlloc` over a list
of flexible weights, together with the final carried remainder. -/
def flexAllocs : List ℚ → ℚ → ℚ → List ℚ × ℚ
  | [], _, rem => ([], rem)
  | w :: ws, ppf, rem =>
      let a := nextAlloc w ppf rem
      let r := flexAllocs ws ppf a.2
      (a.1 :: r.1, r.2)

/-- `MIN_FLEX_SUM`: the epsilon seed of the flexible-weight accumulator
(flex.rs line 1018): "We start with a small value to avoid divide-by-zero
errors." -/
def MIN_FLEX_SUM : ℚ := 1/10000

/-- The accumulators of the first layout pass (non-flexible children). -/
structure Pass1Acc where
  minor : ℚ
  max_above_baseline : ℚ
  max_below_baseline : ℚ
  any_use_baseline : Bool
  any_changed : Bool
  major_non_flex : ℚ
  flex_sum : ℚ

/-- Pass 1 of `Flex::layout` (flex.rs lines 1020–1068): measure (or skip)
the fixed children, resolve fixed-spacer lengths, and accumulate the
minor/baseline maxima, the non-flexible major total and the flexible
weight sum. -/
def pass1 (dir : Axis) (cross : CrossAxisAlignment) (loosened_bc : BoxConstraints)
    (bc_changed : Bool) :
    List (Child WidgetState ℚ) → Pass1Acc → List (Child WidgetState ℚ) × Pass1Acc
  | [], acc => ([], acc)
  | c :: rest, acc =>
      let step : Child WidgetState ℚ × Pass1Acc :=
        match c with
        | .fixed w al =>
            let measured : Size × WidgetState × Bool × Bool :=
              if bc_changed || w.needsLayout then
                let alignment := al.getD cross
                let aub := acc.any_use_baseline || decide (alignment = .Baseline)
                let old_size := w.size
                let m := runLayout w loosened_bc
                let anyCh := acc.any_changed || decide (old_size ≠ m.1)
                (m.1, m.2, aub, anyCh)
              else
                (w.size, skipLayout w, acc.any_use_baseline, acc.any_changed)
            let child_size := measured.1
            let w1 := measured.2.1
            let baseline_offset := w1.baseline
            (.fixed w1 al,
              { acc with
                any_use_baseline := measured.2.2.1
                any_changed := measured.2.2.2
                major_non_flex := acc.major_non_flex + qexpand (dir.major child_size)
                minor := max acc.minor (qexpand (dir.minor child_size))
                max_above_baseline :=
                  max acc.max_above_baseline (child_size.height - baseline_offset)
                max_below_baseline := max acc.max_below_baseline baseline_offset })
        | .fixedSpacer kv _ =>
            let calculated := kv
            let calculated := max calculated 0
            (.fixedSpacer kv calculated,
              { acc with major_non_flex := acc.major_non_flex + calculated })
        | .flex w al fx => (.flex w al fx, { acc with flex_sum := acc.flex_sum + fx })
        | .flexedSpacer fx calculated =>
            (.flexedSpacer fx calculated, { acc with flex_sum := acc.flex_sum + fx })
      let r := pass1 dir cross loosened_bc bc_changed rest step.2
      (step.1 :: r.1, r.2)

/-- The accumulators of the second layout pass (flexible children). -/
structure Pass2Acc where
  minor : ℚ
  max_above_baseline : ℚ
  max_below_baseline : ℚ
  any_use_baseline : Bool
  any_changed : Bool
  remainder : ℚ
  major_flex : ℚ

/-- Pass 2 of `Flex::layout` (flex.rs lines 1070–1124): allocate rounded
major extents to the flexible children with remainder carry, measure (or
skip) flexible widget children, and resolve flexed-spacer lengths. -/
def pass2 (dir : Axis) (cross : CrossAxisAlignment) (loosened_bc : BoxConstraints)
    (px_per_flex : ℚ) :
    List (Child WidgetState ℚ) → Pass2Acc → List (Child WidgetState ℚ) × Pass2Acc
  | [], acc => ([], acc)
  | c :: rest, acc =>
      let step : Child WidgetState ℚ × Pass2Acc :=
        match c with
        | .flex w al fx =>
            let measured : Size × WidgetState × Bool × Bool × ℚ :=
              if acc.any_changed || w.needsLayout then
                let alignment := al.getD cross
                let aub := acc.any_use_baseline || decide (alignment = .Baseline)
                let alloc := nextAlloc fx px_per_flex acc.remainder
                let old_size := w.size
                let child_bc := dir.constraints loosened_bc 0 alloc.1
                let m := runLayout w child_bc
                let anyCh := acc.any_changed || decide (old_size ≠ m.1)
                (m.1, m.2, aub, anyCh, alloc.2)
              else
                (w.size, skipLayout w, acc.any_use_baseline, acc.any_changed, acc.remainder)
            let child_size := measured.1
            let w1 := measured.2.1
            let baseline_offset := w1.baseline
            (.flex w1 al fx,
              { acc with
                any_use_baseline := measured.2.2.1
                any_changed := measured.2.2.2.1
                remainder := measured.2.2.2.2
                major_flex := acc.major_flex + qexpand (dir.major child_size)
                minor := max acc.minor (qexpand (dir.minor child_size))
                max_above_baseline :=
                  max acc.max_above_baseline (child_size.height - baseline_offset)
                max_below_baseline := max acc.max_below_baseline baseline_offset })
        | .flexedSpacer fx _ =>
            let alloc := nextAlloc fx px_per_flex acc.remainder
            (.flexedSpacer fx alloc.1,
              { acc with remainder := alloc.2, major_flex := acc.major_flex + alloc.1 })
        | other => (other, acc)
      let r := pass2 dir cross loosened_bc px_per_flex rest step.2
      (step.1 :: r.1, r.2)

/-- The shared body of the `Fixed`/`Flex` arm of the placement pass
(flex.rs lines 1150–1193). -/
def placeWidget (dir : Axis) (cross : CrossAxisAlignment) (gap minor_dim extra_height
    max_above_baseline : ℚ) (w : WidgetState) (al : Option CrossAxisAlignment)
    (major : ℚ) (sp : Spacing) : WidgetState × ℚ × Spacing :=
  let child_size := w.size
  let alignment := al.getD cross
  let offsetAndWidget : ℚ × WidgetState :=
    match alignment with
    | .Baseline =>
        if dir = .Horizontal then
          let child_baseline := w.baseline
          let child_above_baseline := child_size.height - child_baseline
          (extra_height + (max_above_baseline - child_above_baseline), w)
        else
          (alignment.align (minor_dim - dir.minor child_size), w)
    | .Fill =>
        let fill_size := Size.ofPair (dir.pack (dir.major child_size) minor_dim)
        if w.size ≠ fill_size then
          (0, (runLayout w (BoxConstraints.tight fill_size)).2)
        else
          (0, w)
    | _ => (alignment.align (minor_dim - dir.minor child_size), w)
  let child_pos := Point.ofPair (dir.pack major offsetAndWidget.1)
  let w1 := { offsetAndWidget.2 with pos := child_pos }
  let major := major + qexpand (dir.major child_size)
  let sv := sp.nextOr0
  (w1, major + sv.1 + gap, sv.2)

/-- The placement pass of `Flex::layout` (flex.rs lines 1146–1200): walk
the children with a running major cursor, resolve each element child's
minor-axis offset from its effective cross alignment (re-measuring `Fill`
children against a tight constraint when their cached size differs from
the fill target), place it, and advance the cursor by the child extent,
the next spacing value and the gap; spacers advance the cursor only. -/
def placePass (dir : Axis) (cross : CrossAxisAlignment) (gap minor_dim extra_height
    max_above_baseline : ℚ) :
    List (Child WidgetState ℚ) → ℚ → Spacing → List (Child WidgetState ℚ) × ℚ × Spacing
  | [], major, sp => ([], major, sp)
  | c :: rest, major, sp =>
      let step : Child WidgetState ℚ × ℚ × Spacing :=
        match c with
        | .fixed w al =>
            let p := placeWidget dir cross gap minor_dim extra_height max_above_baseline
              w al major sp
            (.fixed p.1 al, p.2)
        | .flex w al fx =>
            let p := placeWidget dir cross gap minor_dim extra_height max_above_baseline
              w al major sp
            (.flex p.1 al fx, p.2)
        | .fixedSpacer kv calculated => (.fixedSpacer kv calculated, major + calculated + gap, sp)
        | .flexedSpacer fx calculated =>
            (.flexedSpacer fx calculated, major + calculated + gap, sp)
      let r := placePass dir cross gap minor_dim extra_height max_above_baseline rest
        step.2.1 step.2.2
      (step.1 :: r.1, r.2)

/-- The resolved gap of a layout pass:
`self.gap.unwrap_or(axis_default_spacer(self.direction))`. -/
def layoutGap (f : Flex WidgetState ℚ) (theme : Theme) : ℚ :=
  f.gap.getD (axis_default_spacer theme f.direction)

/-- The initial accumulators of pass 1, as set up by `Flex::layout`
(flex.rs lines 1003–1019): `minor` seeded from the constraint minimum,
`any_changed` from the constraint change and the container-level dirty
flag (`ctx.needs_layout()`), `major_non_flex` from the total reserved gap
(`len.saturating_sub(1) * gap`) and `flex_sum` from `MIN_FLEX_SUM`. -/
def initPass1Acc (f : Flex WidgetState ℚ) (ctxNeedsLayout : Bool) (theme : Theme)
    (bc : BoxConstraints) : Pass1Acc :=
  { minor := f.direction.minor bc.cmin
    max_above_baseline := 0
    max_below_baseline := 0
    any_use_baseline := false
    any_changed := decide (f.old_bc ≠ bc) || ctxNeedsLayout
    major_non_flex := ((f.children.length - 1 : ℕ) : ℚ) * layoutGap f theme
    flex_sum := MIN_FLEX_SUM }

/-- Pass 1 of `Flex::layout` applied with the arguments `layout` uses. -/
def layoutPass1 (f : Flex WidgetState ℚ) (ctxNeedsLayout : Bool) (theme : Theme)
    (bc : BoxConstraints) : List (Child WidgetState ℚ) × Pass1Acc :=
  pass1 f.direction f.cross_alignment bc.loosen (decide (f.old_bc ≠ bc)) f.children
    (initPass1Acc f ctxNeedsLayout theme bc)

/-- The result of a layout invocation: the updated container state (with
the refreshed per-child caches and `old_bc`), the returned size, and the
baseline offset passed to `ctx.set_baseline_offset`. -/
structure LayoutResult where
  flex : Flex WidgetState ℚ
  size : Size
  baseline : ℚ

/-- `Flex::layout` (flex.rs lines 982–1245), embedded over exact rationals
with the `Border` and `Padding` properties at their zero defaults (under
which `layout_down`, `place_down` and `layout_up` are identities).  The
layout-context collaborator state per child lives inside `WidgetState`
(see `runLayout`); the container-level `ctx.needs_layout()` flag is the
`ctxNeedsLayout` argument. -/
def layout (f : Flex WidgetState ℚ) (ctxNeedsLayout : Bool) (theme : Theme)
    (bc : BoxConstraints) : LayoutResult :=
  let bc_changed := decide (f.old_bc ≠ bc)
  let loosened_bc := bc.loosen
  let gap := layoutGap f theme
  let p1 := layoutPass1 f ctxNeedsLayout theme bc
  let cs1 := p1.1
  let a1 := p1.2
  let total_major := f.direction.major bc.cmax
  let remaining := max (total_major - a1.major_non_flex) 0
  let px_per_flex := remaining / a1.flex_sum
  let p2 := pass2 f.direction f.cross_alignment loosened_bc px_per_flex cs1
    { minor := a1.minor
      max_above_baseline := a1.max_above_baseline
      max_below_baseline := a1.max_below_baseline
      any_use_baseline := a1.any_use_baseline
      any_changed := a1.any_changed
      remainder := 0
      major_flex := 0 }
  let cs2 := p2.1
  let a2 := p2.2
  let extra :=
    if f.fill_major_axis then
      max (remaining - a2.major_flex) 0
    else
      max (f.direction.major bc.cmin - (a1.major_non_flex + a2.major_flex)) 0
  let spacing := Spacing.new f.main_alignment (.finite extra) f.children.length
  let minor_dim :=
    match f.direction with
    | .Horizontal => if a2.any_use_baseline then
        a2.max_below_baseline + a2.max_above_baseline
      else a2.minor
    | .Vertical => a2.minor
  let extra_height := a2.minor - min minor_dim a2.minor
  let first := spacing.nextOr0
  let p3 := placePass f.direction f.cross_alignment gap minor_dim extra_height
    a2.max_above_baseline cs2 first.1 first.2
  let cs3 := p3.1
  let major := p3.2.1
  let major := if f.children.length = 0 then major else major - gap
  let major := if MIN_FLEX_SUM < a1.flex_sum then total_major else major
  let my_size := Size.ofPair (f.direction.pack major minor_dim)
  let baseline :=
    match f.direction with
    | .Horizontal => a2.max_below_baseline
    | .Vertical =>
        match cs3.getLast? with
        | none => 0
        | some last =>
            match last.widget with
            | some w => w.baseline + (my_size.height - (w.pos.y + w.size.height))
            | none => 0
  { flex := { f with children := cs3, old_bc := bc }, size := my_size, baseline := baseline }

/-- The major-axis allocations recorded in a child list after the flexible
measurement pass: for a measured `Flex` child, the major maximum of the
constraints it was measured against; for a `FlexedSpacer`, its calculated
size. -/
def allocationsOf (dir : Axis) (cs : List (Child WidgetState ℚ)) : List ℚ :=
  cs.filterMap fun c =>
    match c with
    | .flex w _ _ => some ((w.lastBc.map fun b => dir.major b.cmax).getD 0)
    | .flexedSpacer _ calculated => some calculated
    | _ => none

/-- The number of `next_space` calls the spacing iterator will still make
from position `i` on, for a run with `n` children (used to account for the
remainder-carry telescoping). -/
def callsFrom : MainAxisAlignment → ℕ → ℕ → ℕ
  | .Start, _, _ => 0
  | .End, _, _ => 0
  | .Center, n, i => (if i = 0 then 1 else 0) + (if i ≤ n then 1 else 0)
  | .SpaceBetween, n, i =>
      if n = 1 then (if i ≤ 1 then 1 else 0) else (if i ≤ 1 then n - 1 else n - i)
  | .SpaceEvenly, n, i => n + 1 - i
  | .SpaceAround, n, i =>
      (if i = 0 then 1 else 0) + 2 * (if i ≤ 1 then n - 1 else n - i) + (if i ≤ n then 1 else 0)

/-- Whether the spacing iterator will still emit the raw `extra` value
(the `Start` / `End` arms) from position `i` on, as a 0/1 rational. -/
def rawFrom : MainAxisAlignment → ℕ → ℕ → ℚ
  | .Start, n, i => if i ≤ n then 1 else 0
  | .End, _, i => if i = 0 then 1 else 0
  | _, _, _ => 0

/-- A theme with zero default gaps (the concrete scenarios below set an
explicit gap, so the theme value is irrelevant to them). -/
def zeroTheme : Theme := ⟨0, 0⟩

/-- A child whose measurement is a 10×10 box with baseline offset 0. -/
def baselineChildA : WidgetState :=
  { measure := fun _ => (⟨10, 10⟩, 0)
    needsLayout := true
    size := ⟨0, 0⟩
    baseline := 0
    pos := ⟨0, 0⟩
    lastBc := none }

/-- A child whose measurement is a 10×10 box with baseline offset 10. -/
def baselineChildB : WidgetState :=
  { measure := fun _ => (⟨10, 10⟩, 10)
    needsLayout := true
    size := ⟨0, 0⟩
    baseline := 0
    pos := ⟨0, 0⟩
    lastBc := none }

/-- A horizontal row with baseline cross-alignment holding the two
baseline children, explicit zero gap. -/
def baselineFlex : Flex WidgetState ℚ :=
  { direction := .Horizontal
    cross_alignment := .Baseline
    main_alignment := .Start
    fill_major_axis := false
    children := [.fixed baselineChildA none, .fixed baselineChildB none]
    old_bc := BoxConstraints.tight ⟨0, 0⟩
    gap := some 0 }

/-- A 100×100 loose constraint envelope. -/
def layoutBc : BoxConstraints := ⟨⟨0, 0⟩, ⟨100, 100⟩⟩

/-- A horizontal container holding a single flexed spacer of weight 1,
explicit zero gap. -/
def unitWeightFlex : Flex WidgetState ℚ :=
  { direction := .Horizontal
    cross_alignment := .Center
    main_alignment := .Start
    fill_major_axis := false
    children := [.flexedSpacer 1 0]
    old_bc := BoxConstraints.tight ⟨0, 0⟩
    gap := some 0 }

/-- A very wide loose constraint envelope (major maximum 10^8). -/
def wideBc : BoxConstraints := ⟨⟨0, 0⟩, ⟨100000000, 100⟩⟩

/-- A 100×50 loose constraint envelope. -/
def smallBc : BoxConstraints := ⟨⟨0, 0⟩, ⟨100, 50⟩⟩

/-- A horizontal container whose children are two zero-weight flexed
spacers. -/
def zeroSpacerFlex : Flex WidgetState ℚ :=
  { direction := .Horizontal
    cross_alignment := .Center
    main_alignment := .Start
    fill_major_axis := false
    children := [.flexedSpacer 0 0, .flexedSpacer 0 0]
    old_bc := BoxConstraints.tight ⟨0, 0⟩
    gap := some 0 }

/-- An empty container over `FloatVal`, for exercising the gap entry
points. -/
def emptyFlexF : Flex Unit FloatVal :=
  { direction := .Horizontal
    cross_alignment := .Center
    main_alignment := .Start
    fill_major_axis := false
    children := []
    old_bc := BoxConstraints.tight ⟨0, 0⟩
    gap := none }

/-- A pass-2 accumulator state at the start of the flexible pass with the
changed flag raised and no carried remainder. -/
def allocAcc : Pass2Acc :=
  { minor := 0
    max_above_baseline := 0
    max_below_baseline := 0
    any_use_baseline := false
    any_changed := true
    remainder := 0
    major_flex := 0 }

/-- Two flexed spacers with weights 1 and 2. -/
def allocChildren : List (Child WidgetState ℚ) :=
  [.flexedSpacer 1 0, .flexedSpacer 2 0]

/-- The run invariant of the spacing iterator: over a full emission run the
list has one value per fuel step; the emitted sum plus the final remainder
accounts for the `next_space` calls (`callsFrom`) times the equal share
plus any raw `extra` emission (`rawFrom`); the final remainder is either
untouched or within half a unit; every emitted value is an integer or the
raw `extra`; and the final index is `n_children + 1`. -/
def SpacingInv (fuel : ℕ) (s : Spacing) : Prop :=
  (Spacing.emitFrom fuel s).1.length = fuel ∧
  (Spacing.emitFrom fuel s).1.sum + (Spacing.emitFrom fuel s).2.remainder =
    (callsFrom s.alignment s.n_children s.index : ℚ) * s.equal_space + s.remainder +
      rawFrom s.alignment s.n_children s.index * s.extra ∧
  ((Spacing.emitFrom fuel s).2.remainder = s.remainder ∨
    |(Spacing.emitFrom fuel s).2.remainder| ≤ 1/2) ∧
  (∀ v ∈ (Spacing.emitFrom fuel s).1, (∃ k : ℤ, v = (k : ℚ)) ∨ v = s.extra) ∧
  (Spacing.emitFrom fuel s).2.index = s.n_children + 1 ∧
  (Spacing.emitFrom fuel s).2.n_children = s.n_children

theorem sum_int_of_mem_int (l : List ℚ) (h : ∀ v ∈ l, ∃ k : ℤ, v = (k : ℚ)) :
    ∃ m : ℤ, l.sum = (m : ℚ) := by
  induction l with
  | nil => exact ⟨0, by simp⟩
  | cons a t ih =>
      obtain ⟨k, hk⟩ := h a (by simp)
      obtain ⟨m, hm⟩ := ih (fun v hv => h v (by simp [hv]))
      exact ⟨k + m, by rw [List.sum_cons, hk, hm]; push_cast; ring⟩

theorem int_eq_of_abs_sub_lt_one (a b : ℤ) (h : |(a : ℚ) - (b : ℚ)| < 1) : a = b := by
  by_contra hne
  have h1 : 1 ≤ |a - b| := Int.one_le_abs (sub_ne_zero.mpr hne)
  have h2 : ((1 : ℤ) : ℚ) ≤ ((|a - b| : ℤ) : ℚ) := Int.cast_le.mpr h1
  rw [Int.cast_abs] at h2
  push_cast at h2
  linarith

theorem sum_pos_of_mem (l : List ℚ) (hall : ∀ x ∈ l, 0 ≤ x) (y : ℚ) (hy : y ∈ l)
    (hp : 0 < y) : 0 < l.sum := by
  induction l with
  | nil => cases hy
  | cons a t ih =>
      rw [List.sum_cons]
      rcases List.mem_cons.mp hy with rfl | hmem
      · have ht : 0 ≤ t.sum := List.sum_nonneg fun x hx => hall x (by simp [hx])
        linarith
      · have ha : 0 ≤ a := hall a (by simp)
        have := ih (fun x hx => hall x (by simp [hx])) hmem
        linarith

theorem major_ofPair_pack (dir : Axis) (a b : ℚ) :
    dir.major (Size.ofPair (dir.pack a b)) = a := by
  cases dir <;> rfl

theorem major_constraints_cmax (dir : Axis) (bc : BoxConstraints) (lo hi : ℚ) :
    dir.major (dir.constraints bc lo hi).cmax = hi := by
  cases dir <;> rfl

theorem pass1_flex_sum (dir : Axis) (cross : CrossAxisAlignment) (lo : BoxConstraints)
    (bch : Bool) :
    ∀ (cs : List (Child WidgetState ℚ)) (acc : Pass1Acc),
      (pass1 dir cross lo bch cs acc).2.flex_sum = acc.flex_sum + (flexWeights cs).sum := by
  intro cs
  induction cs with
  | nil => intro acc; simp [pass1, flexWeights]
  | cons c rest ih =>
      intro acc
      cases c with
      | fixed w al => simp [pass1, flexWeights, ih]
      | flex w al fx => simp [pass1, flexWeights, ih]; ring
      | fixedSpacer kv calculated => simp [pass1, flexWeights, ih]
      | flexedSpacer fx calculated => simp [pass1, flexWeights, ih]; ring

/-- C5 counterexample: `with_flex_spacer(0.0)` stores a `FlexedSpacer`
whose weight `0.0` is non-positive, so not every flexible entry carries a
positive normal weight. -/
theorem flex_spacer_zero_weight_counterexample :
    with_flex_spacer ([] : List (Child Unit FloatVal)) (.finite 0) =
      [Child.flexedSpacer (.finite 0) (.finite 0)] ∧
    (with_flex_spacer ([] : List (Child Unit FloatVal)) (.finite 0)).all childWeightOk
      = false := by
  constructor
  · with_unfolding_all rfl
  · with_unfolding_all rfl

/-- C5 (amended): the widget entry points (`new_flex_child`, used by every
`with_flex_child` / `add_flex_child` / `insert_flex_child` /
`update_child_flex_params` path) only ever store normal, strictly positive
weights, downgrading anything else to `Fixed` with a diagnostic; the
flexible-spacer entry points only clamp weights that fail `flex >= 0.0`
(negative or NaN) to `0.0`, so the stored spacer weight is always `>= 0.0`
but may legitimately be `0.0` or `+∞`. -/
theorem flex_weight_validation {W : Type} :
    (∀ (params : FlexParams) (widget : W),
        childWeightOk (new_flex_child params widget) = true) ∧
    (∀ g : FloatVal, FloatVal.ble (.finite 0) (sanitizeSpacerFlex g) = true) := by
  constructor
  · intro params widget
    unfold new_flex_child
    cases params.flex with
    | none => rfl
    | some flex =>
        by_cases h : (flex.isNormal && FloatVal.blt (.finite 0) flex) = true
        · simp only [h, if_true]
          simpa [childWeightOk] using h
        · simp only [Bool.not_eq_true] at h
          simp [h, childWeightOk]
  · intro g
    by_cases h : FloatVal.ble (.finite 0) g = true
    · have hs : sanitizeSpacerFlex g = g := by unfold sanitizeSpacerFlex; simp [h]
      rw [hs]; exact h
    · simp only [Bool.not_eq_true] at h
      have hs : sanitizeSpacerFlex g = .finite 0 := by unfold sanitizeSpacerFlex; simp [h]
      rw [hs]
      simp [FloatVal.ble]

/-- C8: both `Flex::gap` and `Flex::set_gap` accept exactly the finite
non-negative gaps, storing `Some(gap)`; a negative, NaN or infinite gap
panics and the stored gap is untouched. -/
theorem gap_validation {W : Type} (f : Flex W FloatVal) (g : FloatVal) :
    (g.isFinite = true → FloatVal.ble (.finite 0) g = true →
        Flex.set_gap f g = some { f with gap := some g } ∧
        Flex.gapBuilder f g = some { f with gap := some g }) ∧
    (g.isFinite = false ∨ FloatVal.ble (.finite 0) g = false →
        Flex.set_gap f g = none ∧ Flex.gapBuilder f g = none) := by
  constructor
  · intro h1 h2
    constructor <;> simp [Flex.set_gap, Flex.gapBuilder, h1, h2]
  · intro h
    rcases h with h | h <;> constructor <;> simp [Flex.set_gap, Flex.gapBuilder, h]

/-- C8 witness: the finite non-negative gap `5` is accepted by `set_gap`
and `gap`, and the NaN gap is rejected. -/
theorem gap_validation_witness :
    FloatVal.isFinite (.finite 5) = true ∧
    FloatVal.ble (.finite 0) (.finite 5) = true ∧
    Flex.set_gap emptyFlexF (.finite 5) = some { emptyFlexF with gap := some (.finite 5) } ∧
    Flex.gapBuilder emptyFlexF (.finite 5) = some { emptyFlexF with gap := some (.finite 5) } ∧
    Flex.set_gap emptyFlexF .nan = none := by
  have h1 : FloatVal.isFinite (.finite 5) = true := rfl
  have h2 : FloatVal.ble (.finite 0) (.finite 5) = true := by with_unfolding_all rfl
  obtain ⟨ha, hb⟩ := (gap_validation emptyFlexF (.finite 5)).1 h1 h2
  obtain ⟨hc, _⟩ := (gap_validation emptyFlexF .nan).2 (Or.inl rfl)
  exact ⟨h1, h2, ha, hb, hc⟩

/-- C9: `raw_gap` and `set_raw_gap` store the given optional gap verbatim
with no validation and no panic path (they are total), so even `Some(NaN)`
enters the container state, while `set_gap` rejects the same value. -/
theorem raw_gap_unvalidated {W Q : Type} (f : Flex W Q) (g : Option Q)
    (f2 : Flex W FloatVal) :
    (Flex.raw_gap f g).gap = g ∧
    (Flex.set_raw_gap f g).gap = g ∧
    (Flex.set_raw_gap f2 (some .nan)).gap = some .nan ∧
    Flex.set_gap f2 .nan = none := by
  refine ⟨rfl, rfl, rfl, ?_⟩
  exact ((gap_validation f2 .nan).2 (Or.inl rfl)).1

/-- C10: `update_spacer_flex` on an in-bounds index holding a spacer
replaces it with `FlexedSpacer(flex, 0.0)` storing the given weight
verbatim (no clamping and no validation, NaN and infinities included);
it panics exactly when the element is not a spacer; and the stored weight
is added directly to the `flex_sum` fold of the next layout pass. -/
theorem update_spacer_flex_spec {W : Type} (cs : List (Child W FloatVal)) (idx : ℕ)
    (w : FloatVal) (h : idx < cs.length) :
    (Child.isSpacer (cs.get ⟨idx, h⟩) = true →
        update_spacer_flex cs idx w = some (cs.set idx (.flexedSpacer w 0))) ∧
    (Child.isSpacer (cs.get ⟨idx, h⟩) = false →
        update_spacer_flex cs idx w = none) ∧
    (∀ (pre suf : List (Child W FloatVal)) (a : FloatVal),
        flexSum (pre ++ .flexedSpacer w 0 :: suf) a = flexSum suf (flexSum pre a + w)) := by
  have hget : cs[idx]? = some (cs.get ⟨idx, h⟩) := List.getElem?_eq_getElem h
  refine ⟨?_, ?_, ?_⟩
  · intro hs
    unfold update_spacer_flex
    rw [hget]
    rcases hc : cs.get ⟨idx, h⟩ with w0 | w0 | k0 | k0 <;> rw [hc] at hs <;>
      simp [Child.isSpacer] at hs
  · intro hs
    unfold update_spacer_flex
    rw [hget]
    rcases hc : cs.get ⟨idx, h⟩ with w0 | w0 | k0 | k0 <;> rw [hc] at hs <;>
      simp [Child.isSpacer] at hs
  · intro pre suf a
    simp [flexSum, List.foldl_append]

/-- C10 witness: replacing the spacer at index 0 with a NaN-weight flexed
spacer succeeds and stores NaN verbatim. -/
theorem update_spacer_flex_witness :
    Child.isSpacer (([Child.flexedSpacer (.finite 1) (.finite 0)] :
        List (Child Unit FloatVal)).get ⟨0, by decide⟩) = true ∧
    update_spacer_flex ([Child.flexedSpacer (.finite 1) (.finite 0)] :
        List (Child Unit FloatVal)) 0 .nan = some [Child.flexedSpacer .nan 0] := by
  have h := (update_spacer_flex_spec
    ([Child.flexedSpacer (.finite 1) (.finite 0)] : List (Child Unit FloatVal))
    0 .nan (by decide)).1 rfl
  exact ⟨rfl, by simpa using h⟩

/-- C2: whenever the flexible weights are non-negative and at least one is
strictly positive, the accumulated `flex_sum` strictly exceeds
`MIN_FLEX_SUM`, so `layout` forces the major component of the returned
size to exactly the offered major-axis maximum, regardless of the
children's measured extents (every weight in the embedding is finite, as
is the constraint envelope). -/
theorem layout_fill_invariant (f : Flex WidgetState ℚ) (ctxNeedsLayout : Bool)
    (theme : Theme) (bc : BoxConstraints)
    (hnn : ∀ w ∈ flexWeights f.children, 0 ≤ w)
    (hpos : ∃ w ∈ flexWeights f.children, 0 < w) :
    f.direction.major (layout f ctxNeedsLayout theme bc).size = f.direction.major bc.cmax := by
  obtain ⟨w, hw, hwpos⟩ := hpos
  have hsum : 0 < (flexWeights f.children).sum := sum_pos_of_mem _ hnn w hw hwpos
  have hfs : MIN_FLEX_SUM < (layoutPass1 f ctxNeedsLayout theme bc).2.flex_sum := by
    unfold layoutPass1
    rw [pass1_flex_sum]
    have hinit : (initPass1Acc f ctxNeedsLayout theme bc).flex_sum = MIN_FLEX_SUM := rfl
    rw [hinit]
    linarith
  simp only [layout]
  rw [if_pos hfs]
  exact major_ofPair_pack f.direction _ _

/-- C2 witness: a container with a single weight-1 flexed spacer fills the
offered 100-unit major axis exactly. -/
theorem layout_fill_invariant_witness :
    (∀ w ∈ flexWeights unitWeightFlex.children, 0 ≤ w) ∧
    (∃ w ∈ flexWeights unitWeightFlex.children, 0 < w) ∧
    Axis.major unitWeightFlex.direction (layout unitWeightFlex false zeroTheme smallBc).size =
      Axis.major unitWeightFlex.direction smallBc.cmax := by
  have h1 : ∀ w ∈ flexWeights unitWeightFlex.children, 0 ≤ w := by
    intro w hw
    simp [flexWeights, unitWeightFlex] at hw
    rw [hw]
    norm_num
  have h2 : ∃ w ∈ flexWeights unitWeightFlex.children, 0 < w := by
    refine ⟨1, ?_, by norm_num⟩
    simp [flexWeights, unitWeightFlex]
  exact ⟨h1, h2, layout_fill_invariant unitWeightFlex false zeroTheme smallBc h1 h2⟩

/-- C6: with every stored flexible weight non-negative, the `flex_sum`
accumulated by pass 1 is at least the epsilon seed `MIN_FLEX_SUM` and
strictly positive, so the divisor of `px_per_flex = remaining / flex_sum`
is never zero (`layout` itself is a total function of the embedding and
cannot panic). -/
theorem layout_flex_sum_positive (f : Flex WidgetState ℚ) (ctxNeedsLayout : Bool)
    (theme : Theme) (bc : BoxConstraints)
    (hnn : ∀ w ∈ flexWeights f.children, 0 ≤ w) :
    MIN_FLEX_SUM ≤ (layoutPass1 f ctxNeedsLayout theme bc).2.flex_sum ∧
    0 < (layoutPass1 f ctxNeedsLayout theme bc).2.flex_sum := by
  have hsum : 0 ≤ (flexWeights f.children).sum := List.sum_nonneg hnn
  have heq : (layoutPass1 f ctxNeedsLayout theme bc).2.flex_sum =
      MIN_FLEX_SUM + (flexWeights f.children).sum := by
    unfold layoutPass1
    rw [pass1_flex_sum]
    rfl
  rw [heq]
  unfold MIN_FLEX_SUM
  constructor <;> linarith

/-- C6 witness: a container whose children are all zero-weight flexed
spacers still yields a strictly positive `flex_sum`. -/
theorem layout_flex_sum_positive_witness :
    (∀ w ∈ flexWeights zeroSpacerFlex.children, 0 ≤ w) ∧
    0 < (layoutPass1 zeroSpacerFlex false zeroTheme layoutBc).2.flex_sum := by
  have h1 : ∀ w ∈ flexWeights zeroSpacerFlex.children, 0 ≤ w := by
    intro w hw
    simp [flexWeights, zeroSpacerFlex] at hw
    rw [hw]
  exact ⟨h1, (layout_flex_sum_positive zeroSpacerFlex false zeroTheme layoutBc h1).2⟩

/-- C3: the code violates layout idempotence.  For a horizontal container
with baseline cross-alignment, the first `layout` call measures both
children and returns a 20×20 size (`minor_dim` comes from the baseline
accumulators because `any_use_baseline` was set inside the measuring
branch); the immediately repeated call with identical constraints and no
intervening mutation takes the skip path, never sets `any_use_baseline`,
resolves `minor_dim` from the plain minor maximum, and returns 20×10. -/
theorem layout_skip_path_not_idempotent :
    (layout baselineFlex false zeroTheme layoutBc).size = ⟨20, 20⟩ ∧
    (layout (layout baselineFlex false zeroTheme layoutBc).flex false zeroTheme
        layoutBc).size = ⟨20, 10⟩ ∧
    (layout (layout baselineFlex false zeroTheme layoutBc).flex false zeroTheme
        layoutBc).size ≠ (layout baselineFlex false zeroTheme layoutBc).size := by
  have h1 : (layout baselineFlex false zeroTheme layoutBc).size = ⟨20, 20⟩ := by
    with_unfolding_all rfl
  have h2 : (layout (layout baselineFlex false zeroTheme layoutBc).flex false zeroTheme
      layoutBc).size = ⟨20, 10⟩ := by
    with_unfolding_all rfl
  refine ⟨h1, h2, ?_⟩
  rw [h1, h2]
  intro hcontra
  have := congrArg Size.height hcontra
  norm_num at this

theorem flexAllocs_sum (ppf : ℚ) :
    ∀ (ws : List ℚ) (rem : ℚ),
      (flexAllocs ws ppf rem).1.sum = ws.sum * ppf + rem - (flexAllocs ws ppf rem).2 := by
  intro ws
  induction ws with
  | nil => intro rem; simp [flexAllocs]
  | cons w t ih =>
      intro rem
      simp only [flexAllocs, nextAlloc, List.sum_cons, ih]
      ring

theorem flexAllocs_rem (ppf : ℚ) :
    ∀ (ws : List ℚ) (rem : ℚ),
      (flexAllocs ws ppf rem).2 = rem ∨ |(flexAllocs ws ppf rem).2| ≤ 1/2 := by
  intro ws
  induction ws with
  | nil => intro rem; exact Or.inl rfl
  | cons w t ih =>
      intro rem
      have hb : |(nextAlloc w ppf rem).2| ≤ 1/2 := abs_sub_f64round_le _
      rcases ih (nextAlloc w ppf rem).2 with h | h
      · right
        simp only [flexAllocs]
        rw [h]
        exact hb
      · right
        simp only [flexAllocs]
        exact h

theorem pass2_allocations (dir : Axis) (cross : CrossAxisAlignment) (lo : BoxConstraints)
    (ppf : ℚ) :
    ∀ (cs : List (Child WidgetState ℚ)) (acc : Pass2Acc), acc.any_changed = true →
      allocationsOf dir (pass2 dir cross lo ppf cs acc).1 =
        (flexAllocs (flexWeights cs) ppf acc.remainder).1 := by
  intro cs
  induction cs with
  | nil => intro acc hch; simp [pass2, allocationsOf, flexWeights, flexAllocs]
  | cons c rest ih =>
      intro acc hch
      cases c with
      | fixed w al =>
          simp only [pass2, allocationsOf, flexWeights, List.filterMap_cons]
          exact ih acc hch
      | fixedSpacer kv calculated =>
          simp only [pass2, allocationsOf, flexWeights, List.filterMap_cons]
          exact ih acc hch
      | flex w al fx =>
          simp only [pass2, hch, Bool.true_or, if_true, allocationsOf, flexWeights,
            List.filterMap_cons, flexAllocs]
          rw [runLayout]
          simp only [Option.map_some, Option.getD_some, major_constraints_cmax]
          have ih2 := ih { acc with
              any_use_baseline := acc.any_use_baseline ||
                decide (al.getD cross = CrossAxisAlignment.Baseline)
              any_changed := true
              remainder := (nextAlloc fx ppf acc.remainder).2
              minor := max acc.minor (qexpand (dir.minor (w.measure
                (dir.constraints lo 0 (nextAlloc fx ppf acc.remainder).1)).1))
              max_above_baseline := max acc.max_above_baseline
                ((w.measure (dir.constraints lo 0 (nextAlloc fx ppf acc.remainder).1)).1.height
                  - (w.measure (dir.constraints lo 0 (nextAlloc fx ppf acc.remainder).1)).2)
              max_below_baseline := max acc.max_below_baseline
                (w.measure (dir.constraints lo 0 (nextAlloc fx ppf acc.remainder).1)).2
              major_flex := acc.major_flex + qexpand (dir.major (w.measure
                (dir.constraints lo 0 (nextAlloc fx ppf acc.remainder).1)).1) } rfl
          simp only [allocationsOf] at ih2
          rw [ih2]
          simp [major_constraints_cmax, flexWeights]
      | flexedSpacer fx calculated =>
          simp only [pass2, allocationsOf, flexWeights, List.filterMap_cons, flexAllocs]
          have ih2 := ih { acc with
              remainder := (nextAlloc fx ppf acc.remainder).2
              major_flex := acc.major_flex + (nextAlloc fx ppf acc.remainder).1 } hch
          simp only [allocationsOf] at ih2
          rw [ih2]
          simp [flexWeights]

/-- C4 (amended): in the flexible measurement pass, with every flexible
item re-measured (the changed flag raised at entry) and no carried
remainder, the allocations are exactly the remainder-carry rounding
sequence `flexAllocs` over the flexible weights, and their sum differs
from `(Σ weights) × px_per_flex` by at most half a rounding unit.  (With
`px_per_flex = remaining / flex_sum` and `flex_sum = MIN_FLEX_SUM +
Σ weights`, this total is `remaining · Σw / (MIN_FLEX_SUM + Σw)`, which
falls short of `remaining` by `remaining · MIN_FLEX_SUM / flex_sum` — not
within one rounding unit of `remaining` in general.) -/
theorem pass2_allocation_sum (dir : Axis) (cross : CrossAxisAlignment)
    (lo : BoxConstraints) (ppf : ℚ) (cs : List (Child WidgetState ℚ)) (acc : Pass2Acc)
    (hchanged : acc.any_changed = true) (hrem : acc.remainder = 0) :
    allocationsOf dir (pass2 dir cross lo ppf cs acc).1 =
      (flexAllocs (flexWeights cs) ppf 0).1 ∧
    |((flexAllocs (flexWeights cs) ppf 0).1.sum) - (flexWeights cs).sum * ppf| ≤ 1/2 := by
  constructor
  · rw [← hrem]
    exact pass2_allocations dir cross lo ppf cs acc hchanged
  · have hdiff : (flexAllocs (flexWeights cs) ppf 0).1.sum - (flexWeights cs).sum * ppf =
        -(flexAllocs (flexWeights cs) ppf 0).2 := by
      rw [flexAllocs_sum]
      ring
    rw [hdiff, abs_neg]
    rcases flexAllocs_rem ppf (flexWeights cs) 0 with h | h
    · rw [h]
      norm_num
    · exact h

/-- C4 witness: two flexed spacers of weights 1 and 2 at
`px_per_flex = 7/3` receive the allocations `[2, 5]` summing to 7, within
half a unit of `(1+2)·(7/3) = 7`. -/
theorem pass2_allocation_sum_witness :
    allocAcc.any_changed = true ∧
    allocAcc.remainder = 0 ∧
    (allocationsOf .Horizontal
        (pass2 .Horizontal .Center layoutBc.loosen (7/3) allocChildren allocAcc).1 =
      (flexAllocs (flexWeights allocChildren) (7/3) 0).1 ∧
    |((flexAllocs (flexWeights allocChildren) (7/3) 0).1.sum) -
        (flexWeights allocChildren).sum * (7/3)| ≤ 1/2) := by
  exact ⟨rfl, rfl,
    pass2_allocation_sum .Horizontal .Center layoutBc.loosen (7/3) allocChildren allocAcc
      rfl rfl⟩

/-- C4 counterexample: a container holding one weight-1 flexed spacer laid
out against a major maximum of 10^8 allocates 99990001 units to its only
flexible item (remainder-carried rounding of `1 × px_per_flex` with
`px_per_flex = 10^8 / (MIN_FLEX_SUM + 1)`), while `remaining` is 10^8: the
sum of the flexible allocations misses `remaining` by 9999, far more than
one rounding unit. -/
theorem flex_allocation_sum_counterexample :
    (layout unitWeightFlex false zeroTheme wideBc).flex.children =
      [Child.flexedSpacer 1 99990001] ∧
    max (Axis.major unitWeightFlex.direction wideBc.cmax -
        (layoutPass1 unitWeightFlex false zeroTheme wideBc).2.major_non_flex) 0
      = 100000000 ∧
    ¬(|(99990001 : ℚ) - 100000000| ≤ 1) := by
  refine ⟨by with_unfolding_all rfl, by with_unfolding_all rfl, ?_⟩
  intro h
  rw [show |(99990001 : ℚ) - 100000000| = 9999 by norm_num] at h
  norm_num at h

theorem next_space_sum (s : Spacing) :
    (s.next_space).1 + (s.next_space).2.remainder = s.equal_space + s.remainder := by
  simp [Spacing.next_space]

theorem next_space_rem_bound (s : Spacing) : |(s.next_space).2.remainder| ≤ 1/2 := by
  have h := abs_sub_f64round_le (s.equal_space + s.remainder)
  simpa [Spacing.next_space] using h

theorem next_space_int (s : Spacing) : ∃ k : ℤ, (s.next_space).1 = (k : ℚ) :=
  f64round_isInt _

theorem emitFrom_succ (fuel : ℕ) (s : Spacing) (v : ℚ) (s1 : Spacing)
    (h : Spacing.next s = some (v, s1)) :
    Spacing.emitFrom (fuel + 1) s =
      (v :: (Spacing.emitFrom fuel s1).1, (Spacing.emitFrom fuel s1).2) := by
  simp [Spacing.emitFrom, h]

theorem spacing_step (fuel : ℕ) (al : MainAxisAlignment) (e : ℚ) (n i : ℕ) (q r : ℚ)
    (v r1 : ℚ)
    (hnext : Spacing.next ⟨al, e, n, i, q, r⟩ = some (v, ⟨al, e, n, i + 1, q, r1⟩))
    (k : ℕ) (d : ℚ)
    (hstep : v + r1 = (k : ℚ) * q + r + d * e)
    (hC : callsFrom al n i = callsFrom al n (i + 1) + k)
    (hR : rawFrom al n i = rawFrom al n (i + 1) + d)
    (hrem : r1 = r ∨ |r1| ≤ 1/2)
    (hint : (∃ j : ℤ, v = (j : ℚ)) ∨ v = e)
    (IH : SpacingInv fuel ⟨al, e, n, i + 1, q, r1⟩) :
    SpacingInv (fuel + 1) ⟨al, e, n, i, q, r⟩ := by
  obtain ⟨L, S, R, M, I, N⟩ := IH
  unfold SpacingInv
  rw [emitFrom_succ fuel _ v _ hnext]
  dsimp only at S I N ⊢
  refine ⟨by simp [L], ?_, ?_, ?_, I, N⟩
  · rw [List.sum_cons]
    have hCq : ((callsFrom al n i : ℕ) : ℚ) = ((callsFrom al n (i + 1) : ℕ) : ℚ) + (k : ℚ) := by
      exact_mod_cast hC
    rw [hCq, hR]
    linear_combination S + hstep
  · rcases R with R | R
    · rw [R]
      rcases hrem with h1 | h1
      · exact Or.inl h1
      · exact Or.inr h1
    · exact Or.inr R
  · intro x hx
    rcases List.mem_cons.mp hx with rfl | hmem
    · exact hint
    · exact M x hmem

theorem emitFrom_invariant :
    ∀ (fuel : ℕ) (al : MainAxisAlignment) (e : ℚ) (n i : ℕ) (q r : ℚ),
      i + fuel = n + 1 → n ≠ 0 → SpacingInv fuel ⟨al, e, n, i, q, r⟩ := by
  intro fuel
  induction fuel with
  | zero =>
      intro al e n i q r h hn
      have hi : i = n + 1 := by omega
      subst hi
      unfold SpacingInv
      dsimp only [Spacing.emitFrom]
      refine ⟨rfl, ?_, Or.inl rfl, by simp, rfl, rfl⟩
      have hC : callsFrom al n (n + 1) = 0 := by
        cases al <;> simp only [callsFrom] <;> (try split_ifs) <;> first | contradiction | omega
      have hR : rawFrom al n (n + 1) = 0 := by
        cases al <;> simp only [rawFrom]
        · rw [if_neg (by omega : ¬ (n + 1 ≤ n))]
        · rw [if_neg (by omega : ¬ (n + 1 = 0))]
      rw [hC, hR]
      simp
  | succ fuel ih =>
      intro al e n i q r h hn
      have hle : i ≤ n := by omega
      have hnlt : ¬ (n < i) := by omega
      cases al with
      | Start =>
          by_cases hi : i = n
          · refine spacing_step fuel .Start e n i q r e r ?_ 0 1 ?_ rfl ?_ (Or.inl rfl)
              (Or.inr rfl) (ih .Start e n (i + 1) q r (by omega) hn)
            · unfold Spacing.next
              dsimp only
              rw [if_neg hnlt, if_neg hn, if_pos hi]
            · push_cast; ring
            · simp only [rawFrom]
              rw [if_pos hle, if_neg (by omega : ¬ (i + 1 ≤ n))]
              norm_num
          · refine spacing_step fuel .Start e n i q r 0 r ?_ 0 0 ?_ rfl ?_ (Or.inl rfl)
              (Or.inl ⟨0, by norm_num⟩) (ih .Start e n (i + 1) q r (by omega) hn)
            · unfold Spacing.next
              dsimp only
              rw [if_neg hnlt, if_neg hn, if_neg hi]
            · push_cast; ring
            · simp only [rawFrom]
              rw [if_pos hle, if_pos (by omega : i + 1 ≤ n)]
              norm_num
      | End =>
          by_cases hi : i = 0
          · refine spacing_step fuel .End e n i q r e r ?_ 0 1 ?_ rfl ?_ (Or.inl rfl)
              (Or.inr rfl) (ih .End e n (i + 1) q r (by omega) hn)
            · unfold Spacing.next
              dsimp only
              rw [if_neg hnlt, if_neg hn, if_pos hi]
            · push_cast; ring
            · simp only [rawFrom]
              rw [if_pos hi, if_neg (by omega : ¬ (i + 1 = 0))]
              norm_num
          · refine spacing_step fuel .End e n i q r 0 r ?_ 0 0 ?_ rfl ?_ (Or.inl rfl)
              (Or.inl ⟨0, by norm_num⟩) (ih .End e n (i + 1) q r (by omega) hn)
            · unfold Spacing.next
              dsimp only
              rw [if_neg hnlt, if_neg hn, if_neg hi]
            · push_cast; ring
            · simp only [rawFrom]
              rw [if_neg hi, if_neg (by omega : ¬ (i + 1 = 0))]
              norm_num
      | Center =>
          by_cases hi0 : i = 0
          · refine spacing_step fuel .Center e n i q r (f64round (q + r))
              (q + r - f64round (q + r)) ?_ 1 0 ?_ ?_ ?_
              (Or.inr (abs_sub_f64round_le (q + r))) (Or.inl (f64round_isInt (q + r)))
              (ih .Center e n (i + 1) q (q + r - f64round (q + r)) (by omega) hn)
            · unfold Spacing.next
              dsimp only
              rw [if_neg hnlt, if_neg hn, if_pos hi0]
              rfl
            · push_cast; ring
            · simp only [callsFrom]; split_ifs <;> first | contradiction | omega
            · norm_num [rawFrom]
          · by_cases hin : i = n
            · refine spacing_step fuel .Center e n i q r (f64round (q + r))
                (q + r - f64round (q + r)) ?_ 1 0 ?_ ?_ ?_
                (Or.inr (abs_sub_f64round_le (q + r))) (Or.inl (f64round_isInt (q + r)))
                (ih .Center e n (i + 1) q (q + r - f64round (q + r)) (by omega) hn)
              · unfold Spacing.next
                dsimp only
                rw [if_neg hnlt, if_neg hn, if_neg hi0, if_pos hin]
                rfl
              · push_cast; ring
              · simp only [callsFrom]; split_ifs <;> first | contradiction | omega
              · norm_num [rawFrom]
            · refine spacing_step fuel .Center e n i q r 0 r ?_ 0 0 ?_ ?_ ?_ (Or.inl rfl)
                (Or.inl ⟨0, by norm_num⟩) (ih .Center e n (i + 1) q r (by omega) hn)
              · unfold Spacing.next
                dsimp only
                rw [if_neg hnlt, if_neg hn, if_neg hi0, if_neg hin]
              · push_cast; ring
              · simp only [callsFrom]; split_ifs <;> first | contradiction | omega
              · norm_num [rawFrom]
      | SpaceBetween =>
          by_cases hi0 : i = 0
          · refine spacing_step fuel .SpaceBetween e n i q r 0 r ?_ 0 0 ?_ ?_ ?_ (Or.inl rfl)
              (Or.inl ⟨0, by norm_num⟩) (ih .SpaceBetween e n (i + 1) q r (by omega) hn)
            · unfold Spacing.next
              dsimp only
              rw [if_neg hnlt, if_neg hn, if_pos hi0]
            · push_cast; ring
            · simp only [callsFrom]; split_ifs <;> first | contradiction | omega
            · norm_num [rawFrom]
          · by_cases hin : i = n
            · by_cases hn1 : n = 1
              · subst hn1
                subst hin
                refine spacing_step fuel .SpaceBetween e 1 1 q r (f64round (q + r))
                  (q + r - f64round (q + r)) ?_ 1 0 ?_ ?_ ?_
                  (Or.inr (abs_sub_f64round_le (q + r))) (Or.inl (f64round_isInt (q + r)))
                  (ih .SpaceBetween e 1 2 q (q + r - f64round (q + r)) (by omega) hn)
                · unfold Spacing.next
                  dsimp only
                  rw [if_neg hnlt, if_neg hn, if_neg hi0,
                    if_neg (by omega : ¬ ((1 : ℕ) ≠ 1))]
                  rfl
                · push_cast; ring
                · simp only [callsFrom]; split_ifs <;> first | contradiction | omega
                · norm_num [rawFrom]
              · obtain ⟨m, rfl⟩ : ∃ m, n = m + 2 := ⟨n - 2, by omega⟩
                subst hin
                refine spacing_step fuel .SpaceBetween e (m + 2) (m + 2) q r 0 r ?_ 0 0
                  ?_ ?_ ?_ (Or.inl rfl) (Or.inl ⟨0, by norm_num⟩)
                  (ih .SpaceBetween e (m + 2) (m + 2 + 1) q r (by omega) hn)
                · unfold Spacing.next
                  dsimp only
                  rw [if_neg hnlt, if_neg hn, if_neg hi0,
                    if_neg (by omega : ¬ (m + 2 ≠ m + 2))]
                  rfl
                · push_cast; ring
                · simp only [callsFrom]; split_ifs <;> first | contradiction | omega
                · norm_num [rawFrom]
            · refine spacing_step fuel .SpaceBetween e n i q r (f64round (q + r))
                (q + r - f64round (q + r)) ?_ 1 0 ?_ ?_ ?_
                (Or.inr (abs_sub_f64round_le (q + r))) (Or.inl (f64round_isInt (q + r)))
                (ih .SpaceBetween e n (i + 1) q (q + r - f64round (q + r)) (by omega) hn)
              · unfold Spacing.next
                dsimp only
                rw [if_neg hnlt, if_neg hn, if_neg hi0, if_pos hin]
                rfl
              · push_cast; ring
              · simp only [callsFrom]; split_ifs <;> first | contradiction | omega
              · norm_num [rawFrom]
      | SpaceEvenly =>
          refine spacing_step fuel .SpaceEvenly e n i q r (f64round (q + r))
            (q + r - f64round (q + r)) ?_ 1 0 ?_ ?_ ?_
            (Or.inr (abs_sub_f64round_le (q + r))) (Or.inl (f64round_isInt (q + r)))
            (ih .SpaceEvenly e n (i + 1) q (q + r - f64round (q + r)) (by omega) hn)
          · unfold Spacing.next
            dsimp only
            rw [if_neg hnlt, if_neg hn]
            rfl
          · push_cast; ring
          · simp only [callsFrom]; omega
          · norm_num [rawFrom]
      | SpaceAround =>
          by_cases hior : i = 0 ∨ i = n
          · refine spacing_step fuel .SpaceAround e n i q r (f64round (q + r))
              (q + r - f64round (q + r)) ?_ 1 0 ?_ ?_ ?_
              (Or.inr (abs_sub_f64round_le (q + r))) (Or.inl (f64round_isInt (q + r)))
              (ih .SpaceAround e n (i + 1) q (q + r - f64round (q + r)) (by omega) hn)
            · unfold Spacing.next
              dsimp only
              rw [if_neg hnlt, if_neg hn, if_pos hior]
              rfl
            · push_cast; ring
            · simp only [callsFrom]; split_ifs <;> first | contradiction | omega
            · norm_num [rawFrom]
          · obtain ⟨j1, hj1⟩ := next_space_int (⟨.SpaceAround, e, n, i, q, r⟩ : Spacing)
            obtain ⟨j2, hj2⟩ :=
              next_space_int ((Spacing.next_space ⟨.SpaceAround, e, n, i, q, r⟩).2)
            refine spacing_step fuel .SpaceAround e n i q r
              ((Spacing.next_space ⟨.SpaceAround, e, n, i, q, r⟩).1 +
                ((Spacing.next_space ⟨.SpaceAround, e, n, i, q, r⟩).2.next_space).1)
              (((Spacing.next_space ⟨.SpaceAround, e, n, i, q, r⟩).2.next_space).2.remainder)
              ?_ 2 0 ?_ ?_ ?_
              (Or.inr (next_space_rem_bound _))
              (Or.inl ⟨j1 + j2, by rw [hj1, hj2]; push_cast; ring⟩)
              (ih .SpaceAround e n (i + 1) q
                (((Spacing.next_space ⟨.SpaceAround, e, n, i, q, r⟩).2.next_space).2.remainder)
                (by omega) hn)
            · unfold Spacing.next
              dsimp only
              rw [if_neg hnlt, if_neg hn, if_neg hior]
              rfl
            · have h1 := next_space_sum (⟨.SpaceAround, e, n, i, q, r⟩ : Spacing)
              have h2 :=
                next_space_sum ((Spacing.next_space ⟨.SpaceAround, e, n, i, q, r⟩).2)
              dsimp only [Spacing.next_space] at h1 h2 ⊢
              push_cast
              linarith [h1, h2]
            · simp only [callsFrom]; split_ifs <;> first | contradiction | omega
            · norm_num [rawFrom]

theorem callsFrom_zero_mul (al : MainAxisAlignment) (e : ℚ) (n : ℕ) (hn : n ≠ 0) :
    (callsFrom al n 0 : ℚ) * (Spacing.new al (.finite e) n).equal_space +
      rawFrom al n 0 * e = e := by
  have hpos : 0 < n := Nat.pos_of_ne_zero hn
  cases al with
  | Start => simp [callsFrom, rawFrom]
  | End => simp [callsFrom, rawFrom]
  | Center =>
      simp only [callsFrom, rawFrom, Spacing.new, FloatVal.isFinite, FloatVal.toRat,
        if_pos hpos, if_pos (Nat.zero_le n)]
      push_cast
      ring
  | SpaceBetween =>
      by_cases hn1 : n = 1
      · subst hn1
        simp only [callsFrom, rawFrom, Spacing.new, FloatVal.isFinite, FloatVal.toRat]
        norm_num
      · have h2 : 2 ≤ n := by omega
        have hmax : max (n - 1) 1 = n - 1 := by omega
        have hne : ((n - 1 : ℕ) : ℚ) ≠ 0 := by
          have : 0 < n - 1 := by omega
          exact_mod_cast Nat.pos_iff_ne_zero.mp this
        simp only [callsFrom, rawFrom, Spacing.new, FloatVal.isFinite, FloatVal.toRat,
          if_pos hpos, if_neg hn1, if_pos (by omega : (0 : ℕ) ≤ 1), hmax]
        rw [mul_comm, div_mul_cancel₀ _ hne]
        norm_num
  | SpaceEvenly =>
      have hne : ((n + 1 : ℕ) : ℚ) ≠ 0 := by positivity
      simp only [callsFrom, rawFrom, Spacing.new, FloatVal.isFinite, FloatVal.toRat,
        if_pos hpos, Nat.sub_zero]
      rw [mul_comm, div_mul_cancel₀ _ hne]
      norm_num
  | SpaceAround =>
      have hcalls : callsFrom .SpaceAround n 0 = 2 * n := by
        simp only [callsFrom]
        split_ifs <;> first | contradiction | omega
      have hne : ((2 * n : ℕ) : ℚ) ≠ 0 := by
        have : 0 < 2 * n := by omega
        exact_mod_cast Nat.pos_iff_ne_zero.mp this
      rw [hcalls]
      simp only [rawFrom, Spacing.new, FloatVal.isFinite, FloatVal.toRat, if_pos hpos]
      rw [mul_comm, div_mul_cancel₀ _ hne]
      norm_num

/-- C1 (amended): iterating `Spacing::new(alignment, extra, n)` to
exhaustion emits exactly `n + 1` values and then yields `None`; whenever
`extra` is an integer (in particular for every value in the spec's test
grid) the emitted values sum to exactly `round(extra) = extra`, for every
alignment policy and every `n`.  (For non-integral `extra`, the `Start`
and `End` policies and the `n = 0` case emit the raw `extra`, so the sum
is `extra` itself rather than `round(extra)` — see the counterexample.) -/
theorem spacing_distributor_sum (al : MainAxisAlignment) (e : ℚ) (n : ℕ)
    (hnonneg : 0 ≤ e) (hint : ∃ k : ℤ, e = (k : ℚ)) :
    (Spacing.run (Spacing.new al (.finite e) n)).length = n + 1 ∧
    (Spacing.run (Spacing.new al (.finite e) n)).sum = f64round e ∧
    (Spacing.next (Spacing.emitFrom (n + 1) (Spacing.new al (.finite e) n)).2).isNone
      = true := by
  by_cases hn : n = 0
  · subst hn
    have hrun : Spacing.run (Spacing.new al (.finite e) 0) = [e] := rfl
    refine ⟨by rw [hrun]; rfl, ?_, rfl⟩
    rw [hrun, f64round_int e hint]
    simp
  · set q0 := (Spacing.new al (.finite e) n).equal_space with hq0
    have hs0 : Spacing.new al (.finite e) n = ⟨al, e, n, 0, q0, 0⟩ := rfl
    rw [hs0]
    have hkey := callsFrom_zero_mul al e n hn
    rw [← hq0] at hkey
    have H := emitFrom_invariant (n + 1) al e n 0 q0 0 (by omega) hn
    unfold SpacingInv at H
    dsimp only at H
    obtain ⟨L, S, R, M, I, N⟩ := H
    have hrunL : Spacing.run (⟨al, e, n, 0, q0, 0⟩ : Spacing) =
        (Spacing.emitFrom (n + 1) (⟨al, e, n, 0, q0, 0⟩ : Spacing)).1 := rfl
    rw [hrunL]
    have hsum : (Spacing.emitFrom (n + 1) (⟨al, e, n, 0, q0, 0⟩ : Spacing)).1.sum +
        (Spacing.emitFrom (n + 1) (⟨al, e, n, 0, q0, 0⟩ : Spacing)).2.remainder = e := by
      linarith [S, hkey]
    obtain ⟨k, rfl⟩ := hint
    obtain ⟨m, hm⟩ := sum_int_of_mem_int _ (fun v hv =>
      (M v hv).elim id (fun h1 => ⟨k, h1⟩))
    have hremF : |(Spacing.emitFrom (n + 1)
        (⟨al, (k : ℚ), n, 0, q0, 0⟩ : Spacing)).2.remainder| ≤ 1/2 := by
      rcases R with h1 | h1
      · rw [h1]
        norm_num
      · exact h1
    have hmk : m = k := by
      apply int_eq_of_abs_sub_lt_one
      have hd : ((m : ℚ)) - (k : ℚ) =
          -(Spacing.emitFrom (n + 1) (⟨al, (k : ℚ), n, 0, q0, 0⟩ : Spacing)).2.remainder := by
        rw [← hm]
        linarith [hsum]
      rw [hd, abs_neg]
      linarith [hremF]
    refine ⟨L, ?_, ?_⟩
    · rw [hm, hmk, f64round_int _ ⟨k, rfl⟩]
    · have hnone : Spacing.next
          (Spacing.emitFrom (n + 1) (⟨al, (k : ℚ), n, 0, q0, 0⟩ : Spacing)).2 = none := by
        unfold Spacing.next
        rw [if_pos]
        rw [I, N]
        omega
      rw [hnone]
      rfl

/-- C1 witness: SpaceEvenly with extra 10 and two children emits three
values summing to round(10). -/
theorem spacing_distributor_sum_witness :
    (0 ≤ (10 : ℚ)) ∧ ((10 : ℚ) = ((10 : ℤ) : ℚ)) ∧
    (Spacing.run (Spacing.new .SpaceEvenly (.finite 10) 2)).length = 3 ∧
    (Spacing.run (Spacing.new .SpaceEvenly (.finite 10) 2)).sum = f64round 10 := by
  have h := spacing_distributor_sum .SpaceEvenly 10 2 (by norm_num) ⟨10, by norm_num⟩
  exact ⟨by norm_num, by norm_num, h.1, h.2.1⟩

/-- C1 counterexample: with the Start policy, non-integral extra 1/2
(exactly representable in `f64`) and zero children, the emitted sequence
is `[1/2]`, whose sum `1/2` is not `round(1/2) = 1`. -/
theorem spacing_sum_counterexample :
    (0 ≤ (1/2 : ℚ)) ∧
    Spacing.run (Spacing.new .Start (.finite (1/2)) 0) = [1/2] ∧
    f64round (1/2) = 1 ∧
    ¬((Spacing.run (Spacing.new .Start (.finite (1/2)) 0)).sum = f64round (1/2)) := by
  have h1 : Spacing.run (Spacing.new .Start (.finite (1/2)) 0) = [1/2] := by
    with_unfolding_all rfl
  have h2 : f64round (1/2) = 1 := by with_unfolding_all rfl
  refine ⟨by norm_num, h1, h2, ?_⟩
  rw [h1, h2]
  norm_num

/-- C7: the spacing distributor returns exactly the specified sequences on
the given inputs; for `n = 0` it emits the single value `extra` itself
(not 0); and a non-finite `extra` is first replaced by 0, making the
iterator behave exactly as if constructed with `extra = 0`. -/
theorem spacing_distributor_values :
    Spacing.run (Spacing.new .Start (.finite 10) 0) = [10] ∧
    Spacing.run (Spacing.new .Start (.finite 10) 3) = [0, 0, 0, 10] ∧
    Spacing.run (Spacing.new .End (.finite 10) 3) = [10, 0, 0, 0] ∧
    Spacing.run (Spacing.new .Center (.finite 17) 3) = [9, 0, 0, 8] ∧
    Spacing.run (Spacing.new .SpaceBetween (.finite 10) 3) = [0, 5, 5, 0] ∧
    Spacing.run (Spacing.new .SpaceEvenly (.finite 10) 2) = [3, 4, 3] ∧
    Spacing.run (Spacing.new .SpaceAround (.finite 10) 2) = [3, 5, 2] ∧
    (∀ (al : MainAxisAlignment) (e : FloatVal),
        Spacing.run (Spacing.new al e 0) = [(Spacing.new al e 0).extra]) ∧
    (∀ (al : MainAxisAlignment) (e : FloatVal) (n : ℕ), e.isFinite = false →
        Spacing.new al e n = Spacing.new al (.finite 0) n) := by
  refine ⟨by with_unfolding_all rfl, by with_unfolding_all rfl, by with_unfolding_all rfl,
    by with_unfolding_all rfl, by with_unfolding_all rfl, by with_unfolding_all rfl,
    by with_unfolding_all rfl, fun al e => rfl, ?_⟩
  intro al e n h
  unfold Spacing.new
  rw [h]
  rfl

/-- C7 witness: a NaN extra is sanitised to 0 before iteration. -/
theorem spacing_distributor_values_witness :
    FloatVal.isFinite .nan = false ∧
    Spacing.new .Start .nan 3 = Spacing.new .Start (.finite 0) 3 := by
  refine ⟨rfl, ?_⟩
  exact spacing_distributor_values.2.2.2.2.2.2.2.2 .Start .nan 3 rfl
